import Mathlib

/-!
Verification development for the `huawei-obs-download` repository
(`obs_multi.py`).  The Python source is shallowly embedded: strings are
Lean `String`s (Python byte strings), filesystem state is an association
list from path components to the md5 checksum of the file's content
(`Utils.md5sum` is modelled as a lookup, i.e. files are identified by
their checksum), and the network collaborator (`ObsClient`) is an
explicit oracle.  Exceptions raised by the collaborator are modelled as
`Option`/`Sum` results, and the unbounded recursion of
`download_failure` is modelled with explicit fuel (fuel exhaustion =
the recursion never returning).
-/

/-- The whitespace characters removed by Python's `str.strip()`:
space, tab, newline, vertical tab, form feed, carriage return. -/
def pyWs (c : Char) : Bool :=
  c = ' ' || c = '\t' || c = '\n' || c = '\x0b' || c = '\x0c' || c = '\r'

/-- Python `str.strip()` on a character list: drop the whitespace run at
both ends. -/
def pyStripChars (l : List Char) : List Char :=
  ((l.dropWhile pyWs).reverse.dropWhile pyWs).reverse

/-- Python `str.strip()` (the source's `i.strip().strip('\n')`: the
second strip is a no-op after the first). -/
def pyStrip (s : String) : String :=
  String.mk (pyStripChars s.toList)

/-- Python `str.split(sep)` for a one-character separator, on character
lists.  `''.split(':') = ['']`, `':'.split(':') = ['', '']`, etc. -/
def splitChars (sep : Char) : List Char → List (List Char)
  | [] => [[]]
  | c :: cs =>
    let r := splitChars sep cs
    if c = sep then [] :: r
    else
      match r with
      | [] => [[c]]
      | h :: t => (c :: h) :: t

/-- Python `s.split(sep)` for a one-character separator, on strings. -/
def pySplitOn (sep : Char) (s : String) : List String :=
  (splitChars sep s.toList).map String.mk

/-- `os.path.basename`: the part of the key after the last `'/'`. -/
def basename (s : String) : String :=
  String.mk ((splitChars '/' s.toList).getLastD [])

/-- Join character-list parts with a separator (Python `sep.join`). -/
def joinSep (sep : Char) : List (List Char) → List Char
  | [] => []
  | [p] => p
  | p :: rest => p ++ sep :: joinSep sep rest

/-- `os.path.dirname`: everything before the last `'/'`
(`dirname(key) = '/'.join(key.split('/')[:-1])`). -/
def dirname (s : String) : String :=
  String.mk (joinSep '/' ((splitChars '/' s.toList).dropLast))

/-- `'/' in object_key`. -/
def containsSlash (s : String) : Bool :=
  s.toList.contains '/'

/-- The path components contributed by `os.path.join(base, *s.split('/'))`:
empty components are dropped by `os.path.join` (they only affect a
trailing slash, never which file a path names). -/
def pathComps (s : String) : List String :=
  ((splitChars '/' s.toList).filter (fun p => !p.isEmpty)).map String.mk

/-- Python truthiness of an optional string (`None` and `''` are falsy). -/
def pyTruthy : Option String → Bool
  | none => false
  | some s => s ≠ ""

/-- The local filesystem: a finite map from path components to the md5
checksum of the file stored there (files are modelled by their
checksum, which is all `obs_multi.py` ever reads from them). -/
abbrev Fs := List (List String × String)

/-- `Utils.md5sum` of the file at `p` (`none` when the file is absent). -/
def fsLookup (fs : Fs) (p : List String) : Option String :=
  match fs with
  | [] => none
  | e :: rest => if e.1 = p then some e.2 else fsLookup rest p

/-- `os.path.exists`. -/
def fsExists (fs : Fs) (p : List String) : Bool :=
  (fsLookup fs p).isSome

/-- `os.remove`. -/
def fsRemove (fs : Fs) (p : List String) : Fs :=
  fs.filter (fun e => !(e.1 = p : Bool))

/-- Writing a file (the result of `ObsClient.getObject` streaming into
the destination, or the target of `shutil.move`). -/
def fsWrite (fs : Fs) (p : List String) (v : String) : Fs :=
  (p, v) :: fsRemove fs p

/-- `shutil.move src dst`. -/
def fsMove (fs : Fs) (src dst : List String) : Fs :=
  match fsLookup fs src with
  | some v => fsWrite (fsRemove fs src) dst v
  | none => fs

/-- `os.path.exists(p) and Utils.md5sum(p) == etag` from
`_check_object_and_catalog` (comparing against Python `None` or a
string; `md5sum` never equals `None`). -/
def md5Matches (fs : Fs) (p : List String) (etag : Option String) : Bool :=
  match fsLookup fs p with
  | none => false
  | some m =>
    match etag with
    | none => false
    | some e => m = e

/-- Result of `_check_object_and_catalog`: the Python function returns
the integer `2` (key is a bare directory), the integer `1` (file already
present with matching checksum), or the download directory path. -/
inductive CheckRes where
  | skipDir
  | skipExists
  | path (p : List String)
deriving DecidableEq, Repr

/-- `bucket_path if bucket_path else self._download_path`
(`bucket_path` is falsy when it is `None` or empty). -/
def resolveBase (dp : List String) (bp : Option (List String)) : List String :=
  match bp with
  | some p => if p = [] then dp else p
  | none => dp

/-- `os.path.join(base, *object_key.split('/'))` (the object's
destination file) resp. `os.path.join(base, object_key)` when the key
has no `'/'`. -/
def objectPathOf (base : List String) (key : String) : List String :=
  if containsSlash key then base ++ pathComps key else base ++ [key]

/-- `down_load_path` of `_check_object_and_catalog`: the directory the
object is downloaded into. -/
def downLoadPathOf (base : List String) (key : String) : List String :=
  if containsSlash key then base ++ pathComps (dirname key) else base

/-- `HuaWeiBucket._check_object_and_catalog` (the `os.makedirs` call
creates directories only, which the file map does not track). -/
def checkObjectAndCatalog (dp : List String) (fs : Fs) (etag : Option String)
    (key : String) (bp : Option (List String)) : CheckRes :=
  let base := resolveBase dp bp
  if basename key = "" then .skipDir
  else if md5Matches fs (objectPathOf base key) etag then .skipExists
  else .path (downLoadPathOf base key)

/-- The network collaborator: `getObject n key` is the result of the
`n`-th `ObsClient.getObject` call of the run — `none` when the call
raises, `some m` when it succeeds and writes a file whose content has
md5 `m` into the destination directory (spec section 6: the file is
named by the key's basename). -/
structure Env where
  getObject : Nat → String → Option String

/-- `HuaWeiBucket.download_object`, returning
`(result, filesystem after the call, next call index)`; `result` is the
Python return value (`1` success/skip, `0` failure). -/
def download_object (env : Env) (dp : List String) (etag : Option String)
    (key : String) (bp : Option (List String)) (fs : Fs) (n : Nat) :
    Nat × Fs × Nat :=
  match checkObjectAndCatalog dp fs etag key bp with
  | .skipDir => (1, fs, n)
  | .skipExists => (1, fs, n)
  | .path dlp =>
    match env.getObject n key with
    | none => (0, fs, n + 1)
    | some contentMd5 =>
      let fs1 := fsWrite fs (dlp ++ [basename key]) contentMd5
      if pyTruthy etag then
        ((if some contentMd5 = etag then 1 else 0), fs1, n + 1)
      else (1, fs1, n + 1)

/-- `HuaWeiBucket.path_object_mov` for a `(etag, key)` pair, returning
`(result, filesystem after the call)`. -/
def path_object_mov (dp : List String) (fs : Fs) (c : String) (key : String)
    (bucketPath : List String) : Nat × Fs :=
  let res := checkObjectAndCatalog dp fs (some c) key (some bucketPath)
  match res with
  | .skipDir => (1, fs)
  | _ =>
    if containsSlash key then
      let bn := basename key
      let pathCorrect :=
        match res with
        | .path dlp => fsExists fs (dlp ++ [bn])
        | _ => true
      let pathError := fsExists fs (bucketPath ++ [bn])
      let fs1 :=
        if pathCorrect && pathError then fsRemove fs (bucketPath ++ [bn])
        else fs
      let fs2 :=
        if !pathCorrect && pathError then
          match res with
          | .path dlp => fsMove fs1 (bucketPath ++ [bn]) (dlp ++ [bn])
          | _ => fs1
        else fs1
      (1, fs2)
    else (1, fs)

/-- A `(etag, key)` object record as returned by a listing page. -/
structure ObjRec where
  etag : String
  key : String
deriving DecidableEq, Repr

/-- The suffix of the bucket's objects strictly after the marker key
(`none`: the whole listing).  Modelled from the spec (section 6,
external collaborator): `listObjects` resumes strictly after the marker
in listing order. -/
def afterMarker (objs : List ObjRec) (marker : Option String) : List ObjRec :=
  match marker with
  | none => objs
  | some m => ((objs.dropWhile (fun o => !(o.key = m : Bool))).drop 1)

/-- Modelled from the spec (section 6): the external collaborator's
`listObjects(bucket, marker, pageSize)`, returning
`(isTruncated, nextMarker, page)`; `nextMarker` is the last key of the
page when more objects remain. -/
def listObjectsSvc (objs : List ObjRec) (marker : Option String)
    (maxKeys : Nat) : Bool × Option String × List ObjRec :=
  let after := afterMarker objs marker
  let page := after.take maxKeys
  let t := decide (maxKeys < after.length)
  ((t, if t then page.getLast?.map ObjRec.key else none, page))

/-- `'%s:%s' % (self._is_truncated, self._next_marker)`: the string
written to `download_marker.txt` (Python renders `True`/`False` and
`None`). -/
def markerFmt (t : Bool) (nm : Option String) : String :=
  (if t then "True" else "False") ++ ":" ++
    (match nm with | some s => s | none => "None")

/-- The paging state of a `HuaWeiBucket`: the `_is_truncated` and
`_next_marker` fields plus the content of `download_marker.txt`
(`none`: the file does not exist). -/
structure ListState where
  isTruncated : Bool
  nextMarker : Option String
  markerFile : Option String
deriving DecidableEq, Repr

/-- `HuaWeiBucket._get_all_object` on a successful listing call: updates
`_is_truncated` / `_next_marker` from the response, writes the marker
file only when `is_truncated`, and returns the page's
`(etag, key)` records. -/
def get_all_object (objs : List ObjRec) (maxKeys : Nat) (st : ListState) :
    ListState × List ObjRec :=
  let r := listObjectsSvc objs st.nextMarker maxKeys
  ({ isTruncated := r.1,
     nextMarker := r.2.1,
     markerFile := if r.1 then some (markerFmt r.1 r.2.1) else st.markerFile },
   r.2.2)

/-- `HuaWeiBucket._set_progress_marker`: parse `download_marker.txt`
into `(_is_truncated, _next_marker)`.  `bool(record[0])` is true for any
non-empty field; `record[1]` is modelled as `none` when the split has a
single field (the source would raise `IndexError` there). -/
def set_progress_marker (markerFile : Option String) : Bool × Option String :=
  match markerFile with
  | none => (true, none)
  | some marker =>
    if marker = "" then (true, none)
    else
      let record := pySplitOn ':' marker
      (decide (record.headD "" ≠ ""), record.get? 1)

/-- `HuaWeiDownLoad.download_all_buckets`, instrumented to return the
buckets actually processed (in order).  The fold state is
`(_next_bucket, processed buckets)`; a bucket is skipped when
`self._next_bucket and bucket != self._next_bucket`. -/
def download_all_buckets (buckets : List String) (nb0 : Option String) :
    List String :=
  (buckets.foldl
    (fun (st : Option String × List String) bucket =>
      let skip :=
        match st.1 with
        | some nb => nb ≠ "" && bucket ≠ nb
        | none => false
      if skip then st else (some bucket, st.2 ++ [bucket]))
    (nb0, [])).2

/-- `'%s:%s\n'` — the ledger line for a failure record, as written both
by `_log_download_failure` (via `pack_download`) and by the rewrite in
`download_failure`. -/
def ledgerLine (c k : String) : String :=
  c ++ ":" ++ k ++ "\n"

/-- Parsing a ledger line during replay:
`i.strip().strip('\n')` then `i.split(':')`. -/
def ledgerParseLine (line : String) : List String :=
  pySplitOn ':' (pyStrip line)

/-- One pass of `HuaWeiBucket.download_failure` over the ledger lines.
`Sum.inl` is an uncaught `ValueError` (a line that does not split into
exactly the two fields unpacked by `download_object`), aborting the
pass with the state at the raise; `Sum.inr` is normal completion with
`(second_failure, filesystem, next call index)`. -/
def download_failure_pass (env : Env) (dp : List String)
    (bp : Option (List String)) :
    List String → Fs → Nat → List (String × String) →
    Sum (Fs × Nat) (List (String × String) × Fs × Nat)
  | [], fs, n, acc => .inr (acc, fs, n)
  | line :: rest, fs, n, acc =>
    let s := pyStrip line
    if s = "" then download_failure_pass env dp bp rest fs n acc
    else
      match pySplitOn ':' s with
      | [c, k] =>
        let r1 := download_object env dp (some c) k bp fs n
        let r2 :=
          if r1.1 = 0 then download_object env dp none k bp r1.2.1 r1.2.2
          else r1
        if r2.1 = 0 then
          download_failure_pass env dp bp rest r2.2.1 r2.2.2 (acc ++ [(c, k)])
        else download_failure_pass env dp bp rest r2.2.1 r2.2.2 acc
      | _ => .inl (fs, n)

/-- Outcome of a `download_failure` call that returned: normally
(`ok`) or by an uncaught exception (`err`), with the filesystem and
next call index at that point. -/
inductive ReplayOutcome where
  | ok (fs : Fs) (n : Nat)
  | err (fs : Fs) (n : Nat)
deriving DecidableEq, Repr

/-- `HuaWeiBucket.download_failure` with explicit fuel for the recursion
depth: `none` means the fuel bound was exhausted before the recursion
returned (the source recurses via `self.download_failure()` — note:
without the `bucket_path` argument — whenever `second_failure` is
non-empty, with no bound of its own). -/
def download_failure (env : Env) (dp : List String) :
    Option (List String) → Nat → List String → Fs → Nat →
    Option ReplayOutcome
  | _, 0, _, _, _ => none
  | bp, fuel + 1, lines, fs, n =>
    if lines.isEmpty then some (.ok fs n)
    else
      match download_failure_pass env dp bp lines fs n [] with
      | .inl (fs1, n1) => some (.err fs1 n1)
      | .inr (secondFailure, fs1, n1) =>
        if secondFailure.isEmpty then some (.ok fs1 n1)
        else
          download_failure env dp none fuel
            (secondFailure.map (fun r => ledgerLine r.1 r.2)) fs1 n1

/-- The file contents observable at each crash point of the marker
write `open(self._download_marker, 'wb'); f.write(data)`: the old
contents, the empty file left by the truncating open, the new
contents. -/
def markerWriteCrashStates (old : Option String) (data : String) :
    List (Option String) :=
  [old, some "", some data]

/-- The ledger lines observable at each crash point of the rewrite in
`download_failure`: `os.remove(self._download_failure)` followed by one
append per retained record (a removed file reads as no lines). -/
def ledgerRewriteCrashStates (old : List String)
    (rem : List (String × String)) : List (List String) :=
  old :: (List.range (rem.length + 1)).map
    (fun i => (rem.take i).map (fun r => ledgerLine r.1 r.2))

/-- A collaborator whose `getObject` raises on every call. -/
def alwaysFailEnv : Env := ⟨fun _ _ => none⟩

/-- A collaborator whose `getObject` always succeeds, delivering content
with md5 `"B"`. -/
def alwaysBEnv : Env := ⟨fun _ _ => some "B"⟩

/-- A collaborator whose first two `getObject` calls raise and whose
later calls succeed with content md5 `"B"`. -/
def lateSuccessEnv : Env := ⟨fun n _ => if n < 2 then none else some "B"⟩

/-- `c` does not begin with a character `str.strip()` removes. -/
def noLeadWs (s : String) : Bool :=
  match s.toList with
  | [] => true
  | ch :: _ => !pyWs ch

/-- `k` does not end with a character `str.strip()` removes. -/
def noTrailWs (s : String) : Bool :=
  match s.toList.getLast? with
  | none => true
  | some ch => !pyWs ch

/-- C1: `download_all_buckets` does not process every bucket in listing
order.  With buckets `["a", "b"]` and no resume pointer it processes
only `"a"` (after processing `"a"` the loop sets `_next_bucket = "a"`,
so `"b"` is skipped); with buckets `["a", "b", "c"]` and resume pointer
`"b"` it processes only `"b"`, skipping `"c"` as well — contradicting
the claim, the function's own docstring (download all buckets' data)
and the resume comments. -/
theorem c1_only_first_bucket_processed :
    download_all_buckets ["a", "b"] none = ["a"] ∧
    download_all_buckets ["a", "b", "c"] (some "b") = ["b"] := by
  decide

/-- C9: a ledger record retried in the second replay pass lands under
the download root, not under the bucket directory.  Bucket directory
`root/b`, ledger record `A:k`, collaborator failing in pass 1 and
succeeding in pass 2: the recursive `self.download_failure()` call
passes no `bucket_path`, so the retried file is written at `root/k`
while `root/b/k` stays absent. -/
theorem c9_second_pass_wrong_destination :
    download_failure lateSuccessEnv ["root"] (some ["root", "b"]) 2
        ["A:k\n"] [] 0 =
      some (.ok [(["root", "k"], "B")] 4) ∧
    fsLookup [(["root", "k"], "B")] ["root", "b", "k"] = none := by
  decide

/-- C2 counterexample: with objects `a`, `b` and page size 1, the marker
persisted before page 1's object `a` is processed is `"True:a"`; a fresh
run parsing that marker and re-listing obtains page `[b]` — page 1's
object `a` is not listed again, so a crash while processing page 1 drops
it. -/
theorem c2_counterexample :
    (get_all_object [⟨"e1", "a"⟩, ⟨"e2", "b"⟩] 1
        ⟨true, none, none⟩).2 = [⟨"e1", "a"⟩] ∧
    (get_all_object [⟨"e1", "a"⟩, ⟨"e2", "b"⟩] 1
        ⟨true, none, none⟩).1.markerFile = some "True:a" ∧
    set_progress_marker (some "True:a") = (true, some "a") ∧
    (get_all_object [⟨"e1", "a"⟩, ⟨"e2", "b"⟩] 1
        ⟨true, some "a", some "True:a"⟩).2 = [⟨"e2", "b"⟩] ∧
    (⟨"e1", "a"⟩ : ObjRec) ∉
      (get_all_object [⟨"e1", "a"⟩, ⟨"e2", "b"⟩] 1
        ⟨true, some "a", some "True:a"⟩).2 := by
  decide

/-- C4 counterexample: on a successful listing call returning the final
page (`isTruncated = false`), `_get_all_object` persists nothing — the
marker file is still absent after the call even though the page was
returned to the caller. -/
theorem c4_counterexample :
    (get_all_object [⟨"e", "a"⟩] 500 ⟨true, none, none⟩).2 =
      [⟨"e", "a"⟩] ∧
    (get_all_object [⟨"e", "a"⟩] 500 ⟨true, none, none⟩).1.isTruncated =
      false ∧
    (get_all_object [⟨"e", "a"⟩] 500 ⟨true, none, none⟩).1.markerFile =
      none := by
  decide

/-- C5 counterexample: with service checksum `"A"` for key `"k"` and a
collaborator that delivers content with md5 `"B"` on every call, the
verified attempt fails (`"B" ≠ "A"`), the key-only fallback succeeds
without any checksum comparison, and the ledger entry is removed
(`second_failure = []`) although the written file's checksum `"B"`
differs from the service-reported checksum `"A"`. -/
theorem c5_counterexample :
    download_failure_pass alwaysBEnv ["root"] (some ["root", "b"])
        ["A:k\n"] [] 0 [] =
      Sum.inr ([], [(["root", "b", "k"], "B")], 2) ∧
    fsLookup [(["root", "b", "k"], "B")] ["root", "b", "k"] = some "B" ∧
    ("B" : String) ≠ "A" := by
  decide

/-- C6 counterexample: the marker write has the crash state `""` (the
truncating `open('wb')` ran but the write did not), which is neither the
old nor the new contents; the ledger rewrite has the crash state `[]`
(after `os.remove`, before any append), in which the still-failing
record `A:k` — neither succeeded nor retained — has vanished. -/
theorem c6_counterexample :
    (some "" ∈ markerWriteCrashStates (some "True:a") "True:b" ∧
      some "" ≠ some "True:a" ∧ some "" ≠ some "True:b") ∧
    (([] : List String) ∈
        ledgerRewriteCrashStates ["A:k\n"] [("A", "k")] ∧
      ledgerLine "A" "k" ∉ ([] : List String) ∧
      (["A:k\n"] : List String) ≠ []) := by
  decide

/-- C10 counterexample: for the record `("a:b", "k")` — whose key `"k"`
contains no `':'` — the appended line parses back into three fields
`["a", "b", "k"]`, not the original pair, because the checksum itself
contains `':'`. -/
theorem c10_counterexample :
    ledgerParseLine (ledgerLine "a:b" "k") = ["a", "b", "k"] ∧
    ledgerParseLine (ledgerLine "a:b" "k") ≠ ["a:b", "k"] ∧
    (':' ∉ "k".toList) := by
  decide

/-- Helper: with the always-failing collaborator and ledger record
`A:k`, every replay pass reproduces the same ledger, so
`download_failure` exhausts any fuel bound. -/
theorem alwaysFail_replay_stuck :
    ∀ (fuel : Nat) (bp : Option (List String)) (n : Nat),
      download_failure alwaysFailEnv ["root"] bp fuel ["A:k\n"] [] n =
        none := by
  intro fuel
  induction fuel with
  | zero => intro bp n; rfl
  | succ m ih =>
    intro bp n
    have hpass : download_failure_pass alwaysFailEnv ["root"] bp
        ["A:k\n"] [] n [] = .inr ([("A", "k")], [], n + 2) := by
      simp only [download_failure_pass,
        show pyStrip "A:k\n" = "A:k" from rfl,
        show pySplitOn ':' "A:k" = ["A", "k"] from rfl,
        show ∀ e bp n, download_object alwaysFailEnv ["root"] e "k" bp
            [] n = (0, [], n + 1) from fun e bp n => by
          cases e <;> rfl]
      simp
    simp [download_failure, hpass,
      show ledgerLine "A" "k" = "A:k\n" from rfl, ih]

/-- C3 counterexample: there is no fixed pass bound `N` within which
`download_failure` always returns: with a collaborator that fails every
call and ledger record `A:k`, every pass reproduces the same ledger and
the recursion exhausts any fuel bound. -/
theorem c3_counterexample :
    ¬ ∃ N : Nat, ∀ (env : Env) (dp : List String)
        (bp : Option (List String)) (lines : List String) (fs : Fs)
        (n : Nat),
        (download_failure env dp bp N lines fs n).isSome = true := by
  rintro ⟨N, h⟩
  have := h alwaysFailEnv ["root"] none ["A:k\n"] [] 0
  rw [alwaysFail_replay_stuck N none 0] at this
  simp at this

/-- C3 (amended): the failure-ledger replay does not terminate for
every ledger content — the recursion has no pass bound.  With a record
that fails on every attempt, every pass leaves the ledger unchanged and
the recursion exhausts every fuel bound (in the source this shows up as
`RuntimeError: maximum recursion depth exceeded`, caught by the
callers), for any recorded `bucket_path` and any call index. -/
theorem c3_replay_recursion_unbounded :
    ∀ (fuel : Nat) (bp : Option (List String)) (n : Nat),
      download_failure alwaysFailEnv ["root"] bp fuel ["A:k\n"] [] n =
        none := by
  intro fuel bp n
  exact alwaysFail_replay_stuck fuel bp n

/-- C4 (amended): `_get_all_object` persists `(isTruncated, nextMarker)`
if and only if the page is truncated; on the final page
(`isTruncated = false`) the previous marker-file contents are left
unchanged and nothing is written. -/
theorem c4_marker_persisted_iff_truncated
    (objs : List ObjRec) (maxKeys : Nat) (st : ListState) :
    (get_all_object objs maxKeys st).1.markerFile =
      if (get_all_object objs maxKeys st).1.isTruncated then
        some (markerFmt (get_all_object objs maxKeys st).1.isTruncated
          (get_all_object objs maxKeys st).1.nextMarker)
      else st.markerFile := by
  simp only [get_all_object]

/-- Helper: `dropWhile` keeps a list whose first element (if any) fails
the predicate. -/
theorem dropWhile_eq_self_of_head {α : Type} {p : α → Bool} {l : List α}
    (h : ∀ x, l.head? = some x → p x = false) : l.dropWhile p = l := by
  cases l with
  | nil => rfl
  | cons x xs => simp [List.dropWhile_cons, h x rfl]

/-- Helper: splitting a list without the separator yields the whole
list as the single field. -/
theorem splitChars_no_sep {sep : Char} :
    ∀ {l : List Char}, sep ∉ l → splitChars sep l = [l] := by
  intro l
  induction l with
  | nil => intro; rfl
  | cons c cs ih =>
    intro h
    have hc : ¬(c = sep) := fun hcs => h (hcs ▸ List.mem_cons_self c cs)
    have hcs : sep ∉ cs := fun hm => h (List.mem_cons_of_mem c hm)
    simp [splitChars, hc, ih hcs]

/-- Helper: splitting around the first separator occurrence. -/
theorem splitChars_append_sep {sep : Char} :
    ∀ {l₁ : List Char} (l₂ : List Char), sep ∉ l₁ →
      splitChars sep (l₁ ++ sep :: l₂) = l₁ :: splitChars sep l₂ := by
  intro l₁
  induction l₁ with
  | nil => intro l₂ _; simp [splitChars]
  | cons c cs ih =>
    intro l₂ h
    have hc : ¬(c = sep) := fun hcs => h (hcs ▸ List.mem_cons_self c cs)
    have hcs : sep ∉ cs := fun hm => h (List.mem_cons_of_mem c hm)
    simp only [List.cons_append, splitChars, List.append_eq, ih l₂ hcs,
      hc, if_false]

/-- Helper: a split is never the empty list of fields. -/
theorem splitChars_ne_nil {sep : Char} :
    ∀ (l : List Char), splitChars sep l ≠ [] := by
  intro l
  induction l with
  | nil => simp [splitChars]
  | cons c cs ih =>
    simp only [splitChars]
    by_cases hc : c = sep
    · simp [hc]
    · simp only [hc, if_false]
      cases splitChars sep cs with
      | nil => simp
      | cons h t => simp

/-- Helper: the number of fields of a split is the separator count plus
one. -/
theorem splitChars_length {sep : Char} :
    ∀ (l : List Char), (splitChars sep l).length = l.count sep + 1 := by
  intro l
  induction l with
  | nil => simp [splitChars]
  | cons c cs ih =>
    simp only [splitChars, List.count_cons]
    by_cases hc : c = sep
    · simp [hc, ih, Nat.add_comm]
    · have hbeq : ¬((c == sep) = true) := by simp [hc]
      simp only [hc, if_false, hbeq]
      cases hr : splitChars sep cs with
      | nil => exact absurd hr (splitChars_ne_nil cs)
      | cons h t => rw [hr] at ih; simpa using ih

/-- Helper: `dropWhile` does not change the count of an element failing
the predicate. -/
theorem count_dropWhile_eq {p : Char → Bool} {a : Char}
    (ha : p a = false) :
    ∀ (l : List Char), (l.dropWhile p).count a = l.count a := by
  intro l
  induction l with
  | nil => rfl
  | cons x xs ih =>
    by_cases hx : p x = true
    · have hxa : ¬(x == a) = true := by
        intro hb
        rw [show x = a from by simpa using hb, ha] at hx
        cases hx
      simp [List.dropWhile_cons, hx, List.count_cons, hxa, ih]
    · simp [List.dropWhile_cons, hx]

/-- Helper: Python `strip()` does not change the count of a
non-whitespace character. -/
theorem count_pyStripChars {a : Char} (ha : pyWs a = false)
    (l : List Char) : (pyStripChars l).count a = l.count a := by
  unfold pyStripChars
  rw [List.count_reverse, count_dropWhile_eq ha, List.count_reverse,
    count_dropWhile_eq ha]

/-- Helper: stripping the ledger line of a record whose checksum does
not start and whose key does not end in whitespace removes exactly the
trailing newline. -/
theorem pyStrip_ledgerLine (c k : String) (hc : noLeadWs c = true)
    (hk : noTrailWs k = true) :
    pyStrip (ledgerLine c k) = c ++ ":" ++ k := by
  have hline : (ledgerLine c k).toList =
      c.toList ++ ':' :: (k.toList ++ ['\n']) := by
    simp [ledgerLine, show (c ++ ":" ++ k ++ "\n").toList =
      ((c.toList ++ [':']) ++ k.toList) ++ ['\n'] from rfl]
  have hfront : (c.toList ++ ':' :: (k.toList ++ ['\n'])).dropWhile pyWs =
      c.toList ++ ':' :: (k.toList ++ ['\n']) := by
    apply dropWhile_eq_self_of_head
    intro x hx
    cases hcl : c.toList with
    | nil =>
      rw [hcl] at hx
      simp at hx
      cases hx
      rfl
    | cons ch cs =>
      rw [hcl] at hx
      simp at hx
      unfold noLeadWs at hc
      rw [hcl] at hc
      simp at hc
      rw [← hx]
      simpa using hc
  have hback :
      ((c.toList ++ ':' :: (k.toList ++ ['\n'])).reverse).dropWhile pyWs =
        k.toList.reverse ++ ':' :: c.toList.reverse := by
    have hrev : (c.toList ++ ':' :: (k.toList ++ ['\n'])).reverse =
        '\n' :: (k.toList.reverse ++ ':' :: c.toList.reverse) := by
      simp
    rw [hrev]
    rw [List.dropWhile_cons]
    simp only [show pyWs '\n' = true from rfl, if_true]
    apply dropWhile_eq_self_of_head
    intro x hx
    cases hkl : k.toList.reverse with
    | nil =>
      rw [hkl] at hx
      simp at hx
      cases hx
      rfl
    | cons ch cs =>
      rw [hkl] at hx
      simp at hx
      unfold noTrailWs at hk
      rw [← List.head?_reverse, hkl] at hk
      simp at hk
      rw [← hx]
      simpa using hk
  unfold pyStrip pyStripChars
  rw [hline, hfront, hback]
  show String.mk (k.toList.reverse ++ ':' :: c.toList.reverse).reverse =
    c ++ ":" ++ k
  have : (k.toList.reverse ++ ':' :: c.toList.reverse).reverse =
      (c.toList ++ [':']) ++ k.toList := by simp
  rw [this]
  rfl

/-- Helper: the ledger round-trip for a record free of separators and
strip-sensitive whitespace. -/
theorem ledger_roundtrip_aux (c k : String) (hc : ':' ∉ c.toList)
    (hk : ':' ∉ k.toList) (h1 : noLeadWs c = true)
    (h2 : noTrailWs k = true) :
    pySplitOn ':' (pyStrip (ledgerLine c k)) = [c, k] := by
  rw [pyStrip_ledgerLine c k h1 h2]
  unfold pySplitOn
  rw [show (c ++ ":" ++ k).toList = c.toList ++ ':' :: k.toList from by
    simp [show (c ++ ":" ++ k).toList =
      (c.toList ++ [':']) ++ k.toList from rfl]]
  rw [splitChars_append_sep k.toList hc, splitChars_no_sep hk]
  rfl

/-- C10 (amended): the ledger round-trip is exact for every record whose
checksum and key contain no `':'`, whose checksum does not begin with
whitespace, and whose key does not end with whitespace (otherwise the
colon-delimited line or the `strip()` on replay mangles it); and for
every record whose key does contain `':'`, the parsed line has more than
two fields, so it is not the original pair. -/
theorem c10_ledger_roundtrip (c k : String) :
    (':' ∉ c.toList → ':' ∉ k.toList → noLeadWs c = true →
      noTrailWs k = true →
      ledgerParseLine (ledgerLine c k) = [c, k]) ∧
    (':' ∈ k.toList → 2 < (ledgerParseLine (ledgerLine c k)).length) := by
  constructor
  · intro hc hk h1 h2
    exact ledger_roundtrip_aux c k hc hk h1 h2
  · intro hk
    unfold ledgerParseLine pySplitOn
    rw [List.length_map, splitChars_length]
    have hcount : ((pyStrip (ledgerLine c k)).toList).count ':' =
        ((ledgerLine c k).toList).count ':' := by
      show (pyStripChars (ledgerLine c k).toList).count ':' = _
      exact count_pyStripChars (show pyWs ':' = false from rfl) _
    rw [hcount]
    have hline : (ledgerLine c k).toList =
        c.toList ++ ':' :: (k.toList ++ ['\n']) := by
      simp [ledgerLine, show (c ++ ":" ++ k ++ "\n").toList =
        ((c.toList ++ [':']) ++ k.toList) ++ ['\n'] from rfl]
    rw [hline]
    rw [List.count_append, List.count_cons]
    have hkc : 0 < k.toList.count ':' := List.count_pos_iff.mpr hk
    have : 0 < (k.toList ++ ['\n']).count ':' := by
      rw [List.count_append]; omega
    simp only [beq_self_eq_true, if_true]
    omega

/-- C10 witness: the round-trip is exact for the record `("A", "k")`,
and the line of record `("A", "x:y")` (key containing `':'`) parses
into more than two fields. -/
theorem c10_ledger_roundtrip_witness :
    ledgerParseLine (ledgerLine "A" "k") = ["A", "k"] ∧
    2 < (ledgerParseLine (ledgerLine "A" "x:y")).length :=
  ⟨(c10_ledger_roundtrip "A" "k").1 (by decide) (by decide) (by decide)
      (by decide),
    (c10_ledger_roundtrip "A" "x:y").2 (by decide)⟩

/-- C5 (amended): a ledger entry is removed when either the
checksum-verified attempt (`download_object` with the recorded etag)
returns nonzero or the key-only fallback (`download_object` with
`etag = None`, which skips checksum verification) returns nonzero; it is
kept in `second_failure` only when both return `0`.  Removal therefore
does not imply a checksum-verified success. -/
theorem c5_removal_follows_either_attempt (env : Env) (dp : List String)
    (bp : Option (List String)) (c k : String) (fs : Fs) (n : Nat)
    (hc : ':' ∉ c.toList) (hk : ':' ∉ k.toList)
    (h1 : noLeadWs c = true) (h2 : noTrailWs k = true) :
    download_failure_pass env dp bp [ledgerLine c k] fs n [] =
      (let r1 := download_object env dp (some c) k bp fs n
       let r2 :=
         if r1.1 = 0 then download_object env dp none k bp r1.2.1 r1.2.2
         else r1
       Sum.inr ((if r2.1 = 0 then [(c, k)] else []), r2.2.1, r2.2.2)) := by
  have hs : pyStrip (ledgerLine c k) = c ++ ":" ++ k :=
    pyStrip_ledgerLine c k h1 h2
  have hsplit : pySplitOn ':' (pyStrip (ledgerLine c k)) = [c, k] :=
    ledger_roundtrip_aux c k hc hk h1 h2
  have hne : pyStrip (ledgerLine c k) ≠ "" := by
    intro h0
    have hmem : ':' ∈ (pyStrip (ledgerLine c k)).toList := by
      rw [hs]
      show ':' ∈ (c.toList ++ [':']) ++ k.toList
      simp
    rw [h0] at hmem
    simp at hmem
  simp only [download_failure_pass, hsplit, hne, if_false]
  split
  · split <;> simp [download_failure_pass]
  · rfl

/-- C5 witness: the removal characterization at the record `("A", "k")`
with the always-succeeding collaborator. -/
theorem c5_removal_follows_either_attempt_witness :
    download_failure_pass alwaysBEnv ["root"] (some ["root", "b"])
        [ledgerLine "A" "k"] [] 0 [] =
      (let r1 := download_object alwaysBEnv ["root"] (some "A") "k"
         (some ["root", "b"]) [] 0
       let r2 :=
         if r1.1 = 0 then
           download_object alwaysBEnv ["root"] none "k" (some ["root", "b"])
             r1.2.1 r1.2.2
         else r1
       Sum.inr ((if r2.1 = 0 then [("A", "k")] else []), r2.2.1, r2.2.2)) :=
  c5_removal_follows_either_attempt alwaysBEnv ["root"]
    (some ["root", "b"]) "A" "k" [] 0 (by decide) (by decide) (by decide)
    (by decide)

/-- C6 (amended): neither durable write is atomic.  The marker write is
an in-place truncating `open('wb')` followed by a `write`, so the empty
file is an observable crash state distinct from both the old and the new
contents; the ledger rewrite is `os.remove` followed by per-record
appends, so the state with no ledger lines at all is observable while
the still-failing records have yet to be rewritten. -/
theorem c6_progress_writes_not_atomic (old : Option String) (data : String)
    (oldL : List String) (rem : List (String × String))
    (h1 : old ≠ some "") (h2 : data ≠ "") (h3 : rem ≠ []) :
    (some "" ∈ markerWriteCrashStates old data ∧ some "" ≠ old ∧
      some "" ≠ some data) ∧
    (([] : List String) ∈ ledgerRewriteCrashStates oldL rem ∧
      rem.map (fun r => ledgerLine r.1 r.2) ≠ []) := by
  refine ⟨⟨?_, ?_, ?_⟩, ?_, ?_⟩
  · simp [markerWriteCrashStates]
  · exact fun h => h1 h.symm
  · intro h
    exact h2 (Option.some.inj h).symm
  · unfold ledgerRewriteCrashStates
    apply List.mem_cons_of_mem
    refine List.mem_map.mpr ⟨0, ?_, rfl⟩
    simp
  · simp [h3]

/-- C6 witness: non-atomicity at the concrete marker transition
`"True:a" → "True:b"` and the concrete retained record `("A", "k")`. -/
theorem c6_progress_writes_not_atomic_witness :
    (some "" ∈ markerWriteCrashStates (some "True:a") "True:b" ∧
      some "" ≠ some "True:a" ∧ some "" ≠ some "True:b") ∧
    (([] : List String) ∈
        ledgerRewriteCrashStates ["x:y\n"] [("A", "k")] ∧
      [("A", "k")].map (fun r => ledgerLine r.1 r.2) ≠ []) :=
  c6_progress_writes_not_atomic (some "True:a") "True:b" ["x:y\n"]
    [("A", "k")] (by decide) (by decide) (by decide)

/-- C7 (confirmed): when the destination file of an object already
exists with checksum equal to the service-reported etag,
`download_object` returns the skip outcome `1`, leaves the filesystem
unchanged, and performs no `getObject` call (the call index is
unchanged). -/
theorem c7_verified_local_copy_skips_network (env : Env)
    (dp : List String) (fs : Fs) (e key : String)
    (bp : Option (List String)) (n : Nat)
    (hbn : basename key ≠ "")
    (hex : fsLookup fs (objectPathOf (resolveBase dp bp) key) = some e) :
    download_object env dp (some e) key bp fs n = (1, fs, n) := by
  have hmd5 : md5Matches fs (objectPathOf (resolveBase dp bp) key)
      (some e) = true := by
    unfold md5Matches
    rw [hex]
    simp
  unfold download_object checkObjectAndCatalog
  simp [hbn, hmd5]

/-- C7 witness: the skip at key `"k"` whose destination
`root/b/k` holds content with checksum `"E"` equal to the etag. -/
theorem c7_verified_local_copy_skips_network_witness :
    download_object alwaysFailEnv ["root"] (some "E") "k"
        (some ["root", "b"]) [(["root", "b", "k"], "E")] 0 =
      (1, [(["root", "b", "k"], "E")], 0) :=
  c7_verified_local_copy_skips_network alwaysFailEnv ["root"]
    [(["root", "b", "k"], "E")] "E" "k" (some ["root", "b"]) 0
    (by decide) (by decide)

/-- Helper: looking up the path just written. -/
theorem fsLookup_fsWrite_self (fs : Fs) (p : List String) (v : String) :
    fsLookup (fsWrite fs p v) p = some v := by
  simp [fsWrite, fsLookup]

/-- Helper: removing a path empties its lookup. -/
theorem fsLookup_fsRemove_self (fs : Fs) (p : List String) :
    fsLookup (fsRemove fs p) p = none := by
  induction fs with
  | nil => rfl
  | cons e rest ih =>
    by_cases he : e.1 = p
    · simpa [fsRemove, fsLookup, he] using ih
    · simpa [fsRemove, fsLookup, he] using ih

/-- Helper: removing one path leaves the others unchanged. -/
theorem fsLookup_fsRemove_ne (fs : Fs) {p q : List String} (h : q ≠ p) :
    fsLookup (fsRemove fs p) q = fsLookup fs q := by
  induction fs with
  | nil => rfl
  | cons e rest ih =>
    show fsLookup (List.filter _ (e :: rest)) q = _
    rw [List.filter_cons]
    by_cases he : e.1 = p
    · rw [if_neg (by simp [he])]
      have heq : ¬(e.1 = q) := by rw [he]; exact fun hq => h hq.symm
      show fsLookup (fsRemove rest p) q = fsLookup (e :: rest) q
      rw [ih]
      simp [fsLookup, heq]
    · rw [if_pos (by simp [he])]
      show fsLookup (e :: fsRemove rest p) q = fsLookup (e :: rest) q
      by_cases heq : e.1 = q
      · simp [fsLookup, heq]
      · simp [fsLookup, heq, ih]

/-- Helper: writing one path leaves the others unchanged. -/
theorem fsLookup_fsWrite_ne (fs : Fs) {p q : List String} (v : String)
    (h : q ≠ p) :
    fsLookup (fsWrite fs p v) q = fsLookup fs q := by
  simp only [fsWrite, fsLookup]
  rw [if_neg (fun hq => h hq.symm)]
  exact fsLookup_fsRemove_ne fs h

/-- Helper: every field of a split is free of the separator. -/
theorem splitChars_parts_no_sep {sep : Char} :
    ∀ (l : List Char), ∀ p ∈ splitChars sep l, sep ∉ p := by
  intro l
  induction l with
  | nil =>
    intro p hp
    simp [splitChars] at hp
    simp [hp]
  | cons c cs ih =>
    intro p hp
    simp only [splitChars] at hp
    by_cases hc : c = sep
    · rw [if_pos hc] at hp
      rcases List.mem_cons.mp hp with h0 | h0
      · simp [h0]
      · exact ih p h0
    · rw [if_neg hc] at hp
      cases hr : splitChars sep cs with
      | nil => exact absurd hr (splitChars_ne_nil cs)
      | cons h t =>
        rw [hr] at hp
        rcases List.mem_cons.mp hp with h0 | h0
        · subst h0
          intro hmem
          rcases List.mem_cons.mp hmem with h1 | h1
          · exact hc h1.symm
          · exact ih h (by rw [hr]; exact List.mem_cons_self h t) h1
        · exact ih p (by rw [hr]; exact List.mem_cons_of_mem h h0)

/-- Helper: splitting a separator-join recovers the parts. -/
theorem splitChars_joinSep {sep : Char} :
    ∀ (parts : List (List Char)), parts ≠ [] →
      (∀ p ∈ parts, sep ∉ p) →
      splitChars sep (joinSep sep parts) = parts := by
  intro parts
  induction parts with
  | nil => intro h; exact absurd rfl h
  | cons p rest ih =>
    intro _ hfree
    cases rest with
    | nil =>
      show splitChars sep p = [p]
      exact splitChars_no_sep (hfree p (List.mem_cons_self p []))
    | cons q rest2 =>
      show splitChars sep (p ++ sep :: joinSep sep (q :: rest2)) = _
      rw [splitChars_append_sep _ (hfree p (List.mem_cons_self _ _))]
      rw [ih (by simp) (fun x hx => hfree x (List.mem_cons_of_mem p hx))]

/-- Helper: a key containing `'/'` splits into at least two fields. -/
theorem parts_length_of_containsSlash {key : String}
    (h : containsSlash key = true) :
    2 ≤ (splitChars '/' key.toList).length := by
  have hmem : '/' ∈ key.toList := by
    have : key.toList.contains '/' = true := h
    simpa using this
  have hpos : 0 < List.count '/' key.toList := List.count_pos_iff.mpr hmem
  rw [splitChars_length]
  omega

/-- Helper: for a key with `'/'` and a non-empty basename, the object's
full path components are the directory components followed by the
basename — i.e. the destination file sits inside the download
directory. -/
theorem pathComps_decomp {key : String} (hs : containsSlash key = true)
    (hbn : basename key ≠ "") :
    pathComps key = pathComps (dirname key) ++ [basename key] := by
  have hparts_ne : splitChars '/' key.toList ≠ [] :=
    splitChars_ne_nil key.toList
  have hlen := parts_length_of_containsSlash hs
  have hdecomp := List.dropLast_append_getLast hparts_ne
  have hfree : ∀ p ∈ splitChars '/' key.toList, '/' ∉ p :=
    splitChars_parts_no_sep key.toList
  have hdir_toList : (dirname key).toList =
      joinSep '/' ((splitChars '/' key.toList).dropLast) := rfl
  have hdl_ne : (splitChars '/' key.toList).dropLast ≠ [] := by
    intro h0
    have hlength := congrArg List.length hdecomp
    rw [h0] at hlength
    simp only [List.nil_append, List.length_cons, List.length_nil]
      at hlength
    omega
  have hdl_free : ∀ p ∈ (splitChars '/' key.toList).dropLast,
      '/' ∉ p := fun p hp => hfree p (List.dropLast_sublist _ |>.mem hp)
  have hsplit_dir : splitChars '/' (dirname key).toList =
      (splitChars '/' key.toList).dropLast := by
    rw [hdir_toList]
    exact splitChars_joinSep _ hdl_ne hdl_free
  have hbn_eq : basename key =
      String.mk ((splitChars '/' key.toList).getLast hparts_ne) := by
    unfold basename
    rw [List.getLastD_eq_getLast?, List.getLast?_eq_getLast _ hparts_ne]
    rfl
  have hlast_ne : ¬((splitChars '/' key.toList).getLast
      hparts_ne).isEmpty = true := by
    intro h0
    apply hbn
    rw [hbn_eq]
    have h1 : (splitChars '/' key.toList).getLast hparts_ne = [] := by
      simpa using h0
    rw [h1]
    try rfl
  unfold pathComps
  rw [hsplit_dir]
  conv_lhs => rw [← hdecomp]
  rw [List.filter_append, List.map_append]
  congr 1
  simp only [List.filter_cons, List.filter_nil]
  rw [if_pos (by simpa using hlast_ne)]
  simp only [List.map_cons, List.map_nil]
  try rw [hbn_eq]
  try rfl

/-- Helper: for a key with `'/'` and a non-empty basename, the
destination file path is the download directory plus the basename
(where `getObject` writes). -/
theorem objectPath_eq_downLoadPath_basename {base : List String}
    {key : String} (hs : containsSlash key = true)
    (hbn : basename key ≠ "") :
    objectPathOf base key = downLoadPathOf base key ++ [basename key] := by
  unfold objectPathOf downLoadPathOf
  rw [if_pos hs, if_pos hs, pathComps_decomp hs hbn, List.append_assoc]

/-- Helper: when the key has a non-empty directory part, the flat
bucket-root path differs from the nested destination path. -/
theorem flat_ne_objectPath {bucketPath : List String} {key : String}
    (hs : containsSlash key = true) (hbn : basename key ≠ "")
    (hdir : pathComps (dirname key) ≠ []) :
    bucketPath ++ [basename key] ≠ objectPathOf bucketPath key := by
  intro h
  unfold objectPathOf at h
  rw [if_pos hs, pathComps_decomp hs hbn] at h
  have hpc : 0 < (pathComps (dirname key)).length := List.length_pos.mpr hdir
  have hlen := congrArg List.length h
  simp only [List.length_append, List.length_cons, List.length_nil] at hlen
  omega

/-- C8 (confirmed): for a key with a path separator, a non-empty
basename and a non-empty directory part (so the nested path is a
genuine second location), `path_object_mov` establishes the file at the
nested path: if the flat bucket-root copy exists and the nested copy is
absent (state `fs1`), the flat copy is moved to the nested path; if
both exist (state `fs2`), the flat copy is deleted and the nested copy
is untouched. -/
theorem c8_path_correction (dp : List String) (c key : String)
    (bucketPath : List String) (fs1 fs2 : Fs) (v : String)
    (hs : containsSlash key = true)
    (hbn : basename key ≠ "")
    (hdir : pathComps (dirname key) ≠ [])
    (hbp : bucketPath ≠ [])
    (ha1 : fsLookup fs1 (bucketPath ++ [basename key]) = some v)
    (ha2 : fsLookup fs1 (objectPathOf bucketPath key) = none)
    (hb1 : fsExists fs2 (bucketPath ++ [basename key]) = true)
    (hb2 : fsExists fs2 (objectPathOf bucketPath key) = true) :
    (fsLookup (path_object_mov dp fs1 c key bucketPath).2
        (objectPathOf bucketPath key) = some v ∧
      fsLookup (path_object_mov dp fs1 c key bucketPath).2
        (bucketPath ++ [basename key]) = none) ∧
    (fsLookup (path_object_mov dp fs2 c key bucketPath).2
        (bucketPath ++ [basename key]) = none ∧
      fsLookup (path_object_mov dp fs2 c key bucketPath).2
        (objectPathOf bucketPath key) =
        fsLookup fs2 (objectPathOf bucketPath key)) := by
  have hbase : resolveBase dp (some bucketPath) = bucketPath := by
    simp [resolveBase, hbp]
  have hnested : objectPathOf bucketPath key =
      downLoadPathOf bucketPath key ++ [basename key] :=
    objectPath_eq_downLoadPath_basename hs hbn
  have hne : bucketPath ++ [basename key] ≠ objectPathOf bucketPath key :=
    flat_ne_objectPath hs hbn hdir
  constructor
  · -- flat exists, nested absent: move
    have hmd : md5Matches fs1 (objectPathOf bucketPath key) (some c) =
        false := by
      unfold md5Matches
      rw [ha2]
    have hchk : checkObjectAndCatalog dp fs1 (some c) key (some bucketPath) =
        .path (downLoadPathOf bucketPath key) := by
      unfold checkObjectAndCatalog
      rw [hbase]
      simp [hbn, hmd]
    have hex1 : fsExists fs1
        (downLoadPathOf bucketPath key ++ [basename key]) = false := by
      rw [← hnested]
      unfold fsExists
      rw [ha2]
      rfl
    have hexflat : fsExists fs1 (bucketPath ++ [basename key]) = true := by
      unfold fsExists
      rw [ha1]
      rfl
    have hmov : path_object_mov dp fs1 c key bucketPath =
        (1, fsMove fs1 (bucketPath ++ [basename key])
          (downLoadPathOf bucketPath key ++ [basename key])) := by
      simp [path_object_mov, hchk, hs, hex1, hexflat]
    rw [hmov]
    have hmove : fsMove fs1 (bucketPath ++ [basename key])
        (downLoadPathOf bucketPath key ++ [basename key]) =
        fsWrite (fsRemove fs1 (bucketPath ++ [basename key]))
          (downLoadPathOf bucketPath key ++ [basename key]) v := by
      unfold fsMove
      rw [ha1]
    rw [hmove]
    constructor
    · rw [hnested]
      exact fsLookup_fsWrite_self _ _ _
    · rw [fsLookup_fsWrite_ne _ _ (by rw [← hnested]; exact hne)]
      exact fsLookup_fsRemove_self _ _
  · -- both exist: remove flat, keep nested
    have hres : path_object_mov dp fs2 c key bucketPath =
        (1, fsRemove fs2 (bucketPath ++ [basename key])) := by
      cases hm : md5Matches fs2 (objectPathOf bucketPath key) (some c) with
      | true =>
        have hchk : checkObjectAndCatalog dp fs2 (some c) key
            (some bucketPath) = .skipExists := by
          unfold checkObjectAndCatalog
          rw [hbase]
          simp [hbn, hm]
        simp [path_object_mov, hchk, hs, hb1]
      | false =>
        have hchk : checkObjectAndCatalog dp fs2 (some c) key
            (some bucketPath) = .path (downLoadPathOf bucketPath key) := by
          unfold checkObjectAndCatalog
          rw [hbase]
          simp [hbn, hm]
        have hex2 : fsExists fs2
            (downLoadPathOf bucketPath key ++ [basename key]) = true := by
          rw [← hnested]
          exact hb2
        simp [path_object_mov, hchk, hs, hex2, hb1]
    rw [hres]
    constructor
    · exact fsLookup_fsRemove_self _ _
    · exact fsLookup_fsRemove_ne _ (Ne.symm hne)

/-- C8 witness: key `"sub/file.txt"` under bucket directory `root/b`;
in `fs1` only the flat copy `root/b/file.txt` exists and is moved to
`root/b/sub/file.txt`; in `fs2` both copies exist and only the flat one
is removed. -/
theorem c8_path_correction_witness :
    (fsLookup (path_object_mov ["root"]
        [(["root", "b", "file.txt"], "V")] "C" "sub/file.txt"
        ["root", "b"]).2
        (objectPathOf ["root", "b"] "sub/file.txt") = some "V" ∧
      fsLookup (path_object_mov ["root"]
        [(["root", "b", "file.txt"], "V")] "C" "sub/file.txt"
        ["root", "b"]).2
        (["root", "b"] ++ [basename "sub/file.txt"]) = none) ∧
    (fsLookup (path_object_mov ["root"]
        [(["root", "b", "file.txt"], "V"),
         (["root", "b", "sub", "file.txt"], "W")] "C" "sub/file.txt"
        ["root", "b"]).2
        (["root", "b"] ++ [basename "sub/file.txt"]) = none ∧
      fsLookup (path_object_mov ["root"]
        [(["root", "b", "file.txt"], "V"),
         (["root", "b", "sub", "file.txt"], "W")] "C" "sub/file.txt"
        ["root", "b"]).2
        (objectPathOf ["root", "b"] "sub/file.txt") =
        fsLookup [(["root", "b", "file.txt"], "V"),
         (["root", "b", "sub", "file.txt"], "W")]
          (objectPathOf ["root", "b"] "sub/file.txt")) :=
  c8_path_correction ["root"] "C" "sub/file.txt" ["root", "b"]
    [(["root", "b", "file.txt"], "V")]
    [(["root", "b", "file.txt"], "V"),
     (["root", "b", "sub", "file.txt"], "W")] "V"
    (by decide) (by decide) (by decide) (by decide) (by decide)
    (by decide) (by decide) (by decide)

/-- Helper: `dropWhile` over a list whose leading block satisfies the
predicate and whose pivot fails it. -/
theorem dropWhile_append_cons {α : Type} (p : α → Bool) (L : List α)
    (a : α) (R : List α) (hL : ∀ x ∈ L, p x = true) (ha : p a = false) :
    (L ++ a :: R).dropWhile p = a :: R := by
  induction L with
  | nil => simp [List.dropWhile_cons, ha]
  | cons y ys ih =>
    simp only [List.cons_append, List.dropWhile_cons,
      hL y (List.mem_cons_self y ys), if_true]
    exact ih (fun x hx => hL x (List.mem_cons_of_mem y hx))

/-- Helper: the listing tail after any marker is a suffix of the full
object list. -/
theorem afterMarker_suffix (objs : List ObjRec) (m : Option String) :
    afterMarker objs m <:+ objs := by
  unfold afterMarker
  cases m with
  | none => exact List.suffix_refl objs
  | some mk =>
    have h1 : List.dropWhile (fun o => !(o.key = mk : Bool)) objs <:+
        objs := List.dropWhile_suffix _
    have h2 : (List.dropWhile (fun o => !(o.key = mk : Bool)) objs).drop 1
        <:+ List.dropWhile (fun o => !(o.key = mk : Bool)) objs :=
      List.drop_suffix 1 _
    exact h2.trans h1

/-- Helper: re-listing from the key of the page's last element resumes
exactly after that element — the remainder of the listing, skipping the
whole page. -/
theorem afterMarker_relist (objs : List ObjRec) (m : Option String)
    (k : Nat) (hnd : (objs.map ObjRec.key).Nodup) (hk : 0 < k)
    (hlt : k - 1 < (afterMarker objs m).length) :
    afterMarker objs
        (some ((afterMarker objs m).get ⟨k - 1, hlt⟩).key) =
      (afterMarker objs m).drop k := by
  obtain ⟨pre, hpre⟩ : afterMarker objs m <:+ objs :=
    afterMarker_suffix objs m
  set A := afterMarker objs m with hA
  set a := A.get ⟨k - 1, hlt⟩ with ha
  have hAdecomp : A = A.take (k - 1) ++ a :: A.drop k := by
    conv_lhs => rw [← List.take_append_drop (k - 1) A]
    congr 1
    rw [List.drop_eq_getElem_cons hlt]
    rw [Nat.sub_add_cancel hk]
    rfl
  have hobjs : objs = (pre ++ A.take (k - 1)) ++ a :: A.drop k := by
    rw [List.append_assoc, ← hAdecomp, hpre]
  have hnd2 : ((pre ++ A.take (k - 1)).map ObjRec.key ++
      a.key :: (A.drop k).map ObjRec.key).Nodup := by
    rw [← List.map_cons, ← List.map_append, ← hobjs]
    exact hnd
  have hkey_notmem : a.key ∉ (pre ++ A.take (k - 1)).map ObjRec.key := by
    have h3 := List.nodup_middle.mp hnd2
    have h4 := (List.nodup_cons.mp h3).1
    intro hmem
    exact h4 (List.mem_append.mpr (Or.inl hmem))
  show afterMarker objs (some a.key) = A.drop k
  simp only [afterMarker]
  conv_lhs => rw [hobjs]
  rw [dropWhile_append_cons _ _ _ _
    (fun x hx => by
      have hxk : x.key ∈ (pre ++ A.take (k - 1)).map ObjRec.key :=
        List.mem_map_of_mem ObjRec.key hx
      have : ¬(x.key = a.key) := fun he => hkey_notmem (he ▸ hxk)
      simp [this])
    (by simp)]
  simp

/-- Helper: `_set_progress_marker` parses a persisted truncated-page
marker back into `(True, nextMarker)` when the marker key is free of
`':'`. -/
theorem set_progress_marker_fmt (lk : String) (h : ':' ∉ lk.toList) :
    set_progress_marker (some (markerFmt true (some lk))) =
      (true, some lk) := by
  have hfmt : markerFmt true (some lk) = "True:" ++ lk := by
    unfold markerFmt
    rw [show ((if true then "True" else "False") ++ ":" : String) = "True:"
      from rfl]
  have htl : ("True:" ++ lk).toList =
      ['T', 'r', 'u', 'e'] ++ ':' :: lk.toList := rfl
  have hne : markerFmt true (some lk) ≠ "" := by
    rw [hfmt]
    intro h0
    have := congrArg String.toList h0
    rw [htl] at this
    simp at this
  have hsplit : pySplitOn ':' (markerFmt true (some lk)) = ["True", lk] := by
    unfold pySplitOn
    rw [hfmt, htl, splitChars_append_sep _ (by decide),
      splitChars_no_sep h]
    rfl
  simp only [set_progress_marker]
  rw [if_neg hne, hsplit]
  rfl

/-- C2 (amended): the marker persisted before a page's objects are
processed is the *next page's* marker, not one that re-lists the same
page.  For any truncated page: a fresh run parses the persisted marker
back to `(True, nextMarker)`, and re-listing from it yields exactly the
continuation after the fetched page, so none of the fetched page's
objects is listed again — a crash during the page's object processing
skips its unfinished objects rather than re-listing them. -/
theorem c2_resume_skips_in_flight_page (objs : List ObjRec) (k : Nat) (st : ListState)
    (hnd : (objs.map ObjRec.key).Nodup)
    (hkeys : ∀ o ∈ objs, ':' ∉ o.key.toList)
    (hk : 0 < k)
    (ht : (get_all_object objs k st).1.isTruncated = true) :
    set_progress_marker (get_all_object objs k st).1.markerFile =
      (true, (get_all_object objs k st).1.nextMarker) ∧
    (listObjectsSvc objs
        (set_progress_marker (get_all_object objs k st).1.markerFile).2
        k).2.2 =
      ((afterMarker objs st.nextMarker).drop k).take k ∧
    ∀ o ∈ (get_all_object objs k st).2,
      o ∉ (listObjectsSvc objs
        (set_progress_marker (get_all_object objs k st).1.markerFile).2
        k).2.2 := by
  set A := afterMarker objs st.nextMarker with hA
  have hr1 : decide (k < A.length) = true := ht
  have hklen : k < A.length := of_decide_eq_true hr1
  have hlt : k - 1 < A.length := by omega
  have hlen_take : (A.take k).length = k := by
    rw [List.length_take]
    omega
  have hlast : (A.take k).getLast? = some (A.get ⟨k - 1, hlt⟩) := by
    rw [List.getLast?_eq_getElem?, hlen_take, List.getElem?_take,
      if_pos (by omega : k - 1 < k), List.getElem?_eq_getElem hlt]
    rfl
  set lk := (A.get ⟨k - 1, hlt⟩).key with hlk
  have hmem_objs : A.get ⟨k - 1, hlt⟩ ∈ objs :=
    (afterMarker_suffix objs st.nextMarker).sublist.mem
      (A.get_mem (k - 1) hlt)
  have hcolon : ':' ∉ lk.toList := hkeys _ hmem_objs
  have hnm : (get_all_object objs k st).1.nextMarker = some lk := by
    show (listObjectsSvc objs st.nextMarker k).2.1 = some lk
    simp only [listObjectsSvc, ← hA]
    rw [hr1, if_pos rfl, hlast]
    rfl
  have hmf : (get_all_object objs k st).1.markerFile =
      some (markerFmt true (some lk)) := by
    show (if (listObjectsSvc objs st.nextMarker k).1 then
        some (markerFmt (listObjectsSvc objs st.nextMarker k).1
          (listObjectsSvc objs st.nextMarker k).2.1)
      else st.markerFile) = _
    have h1 : (listObjectsSvc objs st.nextMarker k).1 = true := ht
    rw [h1, if_pos rfl]
    have h2 : (listObjectsSvc objs st.nextMarker k).2.1 = some lk := hnm
    rw [h2]
  have hparse : set_progress_marker (get_all_object objs k st).1.markerFile
      = (true, some lk) := by
    rw [hmf]
    exact set_progress_marker_fmt lk hcolon
  have hrelist : afterMarker objs (some lk) = A.drop k :=
    afterMarker_relist objs st.nextMarker k hnd hk hlt
  have hpage2 : (listObjectsSvc objs
      (set_progress_marker (get_all_object objs k st).1.markerFile).2
      k).2.2 = (A.drop k).take k := by
    rw [hparse]
    show (listObjectsSvc objs (some lk) k).2.2 = _
    simp only [listObjectsSvc]
    rw [hrelist]
  refine ⟨by rw [hparse, hnm], hpage2, ?_⟩
  intro o ho hmem
  rw [hpage2] at hmem
  have hoA : o ∈ A.take k := ho
  have hoD : o ∈ A.drop k := List.mem_of_mem_take hmem
  have hnodupA : A.Nodup :=
    ((afterMarker_suffix objs st.nextMarker).sublist).nodup
      (List.Nodup.of_map _ hnd)
  exact List.disjoint_take_drop hnodupA (le_refl k) hoA hoD

/-- C2 witness: objects `a`, `b` with page size 1 from the initial
state — the persisted marker parses to `(True, "a")` and re-listing
yields only `b`, skipping page 1's object `a`. -/
theorem c2_resume_skips_in_flight_page_witness :
    set_progress_marker (get_all_object [⟨"e1", "a"⟩, ⟨"e2", "b"⟩] 1
        ⟨true, none, none⟩).1.markerFile =
      (true, (get_all_object [⟨"e1", "a"⟩, ⟨"e2", "b"⟩] 1
        ⟨true, none, none⟩).1.nextMarker) ∧
    (listObjectsSvc [⟨"e1", "a"⟩, ⟨"e2", "b"⟩]
        (set_progress_marker (get_all_object [⟨"e1", "a"⟩, ⟨"e2", "b"⟩] 1
          ⟨true, none, none⟩).1.markerFile).2 1).2.2 =
      ((afterMarker [⟨"e1", "a"⟩, ⟨"e2", "b"⟩]
        (⟨true, none, none⟩ : ListState).nextMarker).drop 1).take 1 ∧
    ∀ o ∈ (get_all_object [⟨"e1", "a"⟩, ⟨"e2", "b"⟩] 1
        ⟨true, none, none⟩).2,
      o ∉ (listObjectsSvc [⟨"e1", "a"⟩, ⟨"e2", "b"⟩]
        (set_progress_marker (get_all_object [⟨"e1", "a"⟩, ⟨"e2", "b"⟩] 1
          ⟨true, none, none⟩).1.markerFile).2 1).2.2 :=
  c2_resume_skips_in_flight_page [⟨"e1", "a"⟩, ⟨"e2", "b"⟩] 1
    ⟨true, none, none⟩ (by decide) (by decide) (by decide) (by decide)
